import Mathlib

/-!
Verification of the helium runtime: a shallow embedding in Lean 4 of the
broadcast ring buffer (src/shared.rs), the spin lock (src/vlock.rs) and the
peer/service runtime (src/p2p.rs), together with theorems settling the
specified properties.

Modelling conventions:
* The underlying async stream of a SharedBuffer is embedded as a finite list
  of poll outcomes: an entry `some a` is one poll returning Poll::Ready(Some(a)),
  an entry `none` is one poll returning Poll::Pending (or Ready(None): both
  merely exit the pull loop).  When the list is exhausted the stream is
  permanently silent, i.e. it has stopped producing.
* Lock acquisition outcomes (which in Rust depend on other threads) are passed
  in as explicit booleans; wakers are modelled as numeric identifiers.
* Machine integers (usize cursors) are modelled as Nat; the Rust code never
  overflows them on the paths considered (cursors are reduced mod 128).
-/

set_option maxRecDepth 100000

/-- Rust's Poll. -/
inductive Poll (α : Type u) where
  | Ready : α → Poll α
  | Pending : Poll α
  deriving Repr, DecidableEq

/-- SharedBuffer from src/shared.rs: the shared state behind all readers.
`stream` is the underlying sequence (as remaining poll outcomes), `buffer`
the 128-slot ring of Option items, `cursor` the write cursor, `wakers` the
registered reader wakers (stream_lock / wakers_lock are represented by the
explicit lock outcomes passed to the operations). -/
structure SharedBuffer (α : Type) where
  stream : List (Option α)
  buffer : List (Option α)
  cursor : Nat
  wakers : List Nat
  deriving Repr

/-- SharedBuffer::new(stream): vec![None; 128], cursor 0, no wakers. -/
def SharedBuffer.new (stream : List (Option α)) : SharedBuffer α :=
  { stream := stream, buffer := List.replicate 128 none, cursor := 0, wakers := [] }

/-- The private cursor-advance method of SharedBuffer (`fn cursor`):
cursor += 1; wrap to 0 at buffer.len(). -/
def SharedBuffer.cursorStep (b : SharedBuffer α) : SharedBuffer α :=
  { b with cursor := if b.cursor + 1 ≥ b.buffer.length then 0 else b.cursor + 1 }

/-- The pull loop inside SharedBuffer::poll_receive:
`while let Poll::Ready(Some(item)) = stream.poll_next_unpin(cx)` writes the
item to slots[cursor], advances the cursor, and stops after 16 writes (fuel
counts the writes still allowed) or at the first non-Ready poll. -/
def pullLoop : SharedBuffer α → Nat → SharedBuffer α
  | b, 0 => b
  | b, fuel + 1 =>
    match b.stream with
    | [] => b
    | none :: rest => { b with stream := rest }
    | some a :: rest =>
      pullLoop (SharedBuffer.cursorStep
        { b with stream := rest, buffer := b.buffer.set b.cursor (some a) }) fuel

/-- Result of one SharedBuffer::poll_receive call: the Poll value returned,
the successor buffer state, and the wakers woken during the call. -/
structure PollOut (α : Type) where
  res : Poll (Option α)
  buf : SharedBuffer α
  woken : List Nat
  deriving Repr

/-- SharedBuffer::poll_receive(cx, stream_cursor).  `lockOK` is the outcome of
stream_lock.try_lock(); `waker` identifies cx's waker.  Fast path when the
reader cursor differs from the write cursor; otherwise pull up to 16 items
under the lock, wake everyone if the cursor moved, else register the waker
and report Pending. -/
def SharedBuffer.poll_receive (b : SharedBuffer α) (stream_cursor : Nat)
    (lockOK : Bool) (waker : Nat) : PollOut α :=
  if stream_cursor = b.cursor then
    if lockOK then
      let b' := pullLoop b 16
      if stream_cursor ≠ b'.cursor then
        ⟨Poll.Ready (b'.buffer.getD stream_cursor none), { b' with wakers := [] }, b'.wakers⟩
      else
        ⟨Poll.Pending, { b' with wakers := b'.wakers ++ [waker] }, []⟩
    else
      ⟨Poll.Pending, { b with wakers := b.wakers ++ [waker] }, []⟩
  else
    ⟨Poll.Ready (b.buffer.getD stream_cursor none), b, []⟩

/-- SharedBuffer::repair(item): under the stream lock, write the current slot,
advance the cursor and wake all registered wakers (returned second). -/
def SharedBuffer.repair (b : SharedBuffer α) (item : α) : SharedBuffer α × List Nat :=
  let b' := SharedBuffer.cursorStep { b with buffer := b.buffer.set b.cursor (some item) }
  ({ b' with wakers := [] }, b'.wakers)

/-- SharedStream from src/shared.rs: a reader handle onto the shared buffer
(the Arc<AtomicPtr<SharedBuffer>> indirection becomes explicit state passing)
plus its own read cursor. -/
structure SharedStream (α : Type) where
  buffer : SharedBuffer α
  cursor : Nat
  deriving Repr

/-- SharedStream::new(stream): fresh buffer, reader cursor 0. -/
def SharedStream.new (stream : List (Option α)) : SharedStream α :=
  { buffer := SharedBuffer.new stream, cursor := 0 }

/-- impl Clone for SharedStream: same buffer, cursor starts at the buffer's
current write cursor. -/
def SharedStream.clone (s : SharedStream α) : SharedStream α :=
  { buffer := s.buffer, cursor := s.buffer.cursor }

/-- SharedStream::poll_receive: delegate to the buffer with the reader's
cursor; on Ready advance the reader cursor (wrapping at buffer.len()). -/
def SharedStream.poll_receive (s : SharedStream α) (lockOK : Bool) (waker : Nat) :
    Poll (Option α) × SharedStream α × List Nat :=
  let r := s.buffer.poll_receive s.cursor lockOK waker
  match r.res with
  | Poll.Ready v =>
    (Poll.Ready v,
     ⟨r.buf, if s.cursor + 1 ≥ r.buf.buffer.length then 0 else s.cursor + 1⟩, r.woken)
  | Poll.Pending => (Poll.Pending, ⟨r.buf, s.cursor⟩, r.woken)

/-- Drive a single reader: poll repeatedly (the lock always free, as no other
task contends), collecting items until the first Pending / end-of-stream or
until `fuel` polls have happened. -/
def readAll : SharedStream α → Nat → List α
  | _, 0 => []
  | s, fuel + 1 =>
    match s.poll_receive true 0 with
    | (Poll.Ready (some a), s', _) => a :: readAll s' fuel
    | _ => []

/-- Canonical shared-buffer state after the first `w` of `items` have been
pulled from the underlying stream (w ≤ items.length ≤ 128): slots 0..w-1 hold
the items, the stream holds the rest, the write cursor is w mod 128. -/
def mkBuf (items : List α) (w : Nat) : SharedBuffer α :=
  { stream := (items.drop w).map some
    buffer := (List.range 128).map (fun i => if i < w then items[i]? else none)
    cursor := w % 128
    wakers := [] }

example : readAll (SharedStream.new ([1, 2, 3].map some)) 5 = [1, 2, 3] := by decide
example :
    ((SharedBuffer.new ([] : List (Option Nat))).poll_receive 0 true 7).res = Poll.Pending := by
  decide

/-! ### Reduction lemmas for the buffer operations -/

lemma pullLoop_zero (b : SharedBuffer α) : pullLoop b 0 = b := rfl

lemma pullLoop_step (b : SharedBuffer α) (fuel : Nat) :
    pullLoop b (fuel + 1) =
      match b.stream with
      | [] => b
      | none :: rest => { b with stream := rest }
      | some a :: rest =>
        pullLoop (SharedBuffer.cursorStep
          { b with stream := rest, buffer := b.buffer.set b.cursor (some a) }) fuel := rfl

lemma pullLoop_stream_nil (b : SharedBuffer α) (h : b.stream = []) :
    ∀ fuel, pullLoop b fuel = b := by
  intro fuel
  cases fuel with
  | zero => rfl
  | succ f => rw [pullLoop_step, h]

lemma poll_receive_fast (b : SharedBuffer α) (sc : Nat) (lk : Bool) (w : Nat)
    (h : sc ≠ b.cursor) :
    b.poll_receive sc lk w = ⟨Poll.Ready (b.buffer.getD sc none), b, []⟩ := by
  simp [SharedBuffer.poll_receive, h]

lemma poll_receive_pull (b : SharedBuffer α) (sc w : Nat)
    (h : sc = b.cursor) (h2 : sc ≠ (pullLoop b 16).cursor) :
    b.poll_receive sc true w =
      ⟨Poll.Ready ((pullLoop b 16).buffer.getD sc none),
       { pullLoop b 16 with wakers := [] }, (pullLoop b 16).wakers⟩ := by
  subst h
  simp [SharedBuffer.poll_receive, h2]

lemma poll_receive_pending_locked (b : SharedBuffer α) (sc w : Nat)
    (h : sc = b.cursor) (h2 : sc = (pullLoop b 16).cursor) :
    b.poll_receive sc true w =
      ⟨Poll.Pending, { pullLoop b 16 with wakers := (pullLoop b 16).wakers ++ [w] }, []⟩ := by
  simp [SharedBuffer.poll_receive, h, ← h2]

lemma poll_receive_pending_nolock (b : SharedBuffer α) (sc w : Nat)
    (h : sc = b.cursor) :
    b.poll_receive sc false w =
      ⟨Poll.Pending, { b with wakers := b.wakers ++ [w] }, []⟩ := by
  simp [SharedBuffer.poll_receive, h]

/-! ### The canonical single-producer states -/

lemma mkBuf_stream (items : List α) (w : Nat) :
    (mkBuf items w).stream = (items.drop w).map some := rfl

lemma mkBuf_cursor (items : List α) (w : Nat) : (mkBuf items w).cursor = w % 128 := rfl

lemma mkBuf_wakers (items : List α) (w : Nat) : (mkBuf items w).wakers = [] := rfl

lemma mkBuf_buffer_length (items : List α) (w : Nat) :
    (mkBuf items w).buffer.length = 128 := by
  simp [mkBuf]

lemma mkBuf_buffer_getD (items : List α) (w i : Nat) (hi : i < 128) :
    (mkBuf items w).buffer.getD i none = if i < w then items[i]? else none := by
  simp [mkBuf, List.getD_eq_getElem?_getD, List.getElem?_map, List.getElem?_range, hi]

lemma set_range_map {β : Type} (f : Nat → β) (v : β) (w n : Nat) (_hw : w < n) :
    ((List.range n).map f).set w v
      = (List.range n).map (fun i => if i = w then v else f i) := by
  apply List.ext_getElem
  · simp
  · intro i h1 h2
    simp only [List.getElem_set, List.getElem_map, List.getElem_range]
    by_cases h : i = w
    · simp [h]
    · rw [if_neg (fun hh => h hh.symm), if_neg h]

/-- Writing the next item into the canonical state advances it to the
canonical state with one more item pulled. -/
lemma mkBuf_write (items : List α) (w : Nat) (hw : w < items.length)
    (hN : items.length ≤ 128) :
    SharedBuffer.cursorStep
      { mkBuf items w with
        stream := (items.drop (w + 1)).map some
        buffer := (mkBuf items w).buffer.set (mkBuf items w).cursor (some items[w]) }
      = mkBuf items (w + 1) := by
  have hw128 : w < 128 := lt_of_lt_of_le hw hN
  have hmod : w % 128 = w := Nat.mod_eq_of_lt hw128
  unfold SharedBuffer.cursorStep
  simp only [mkBuf, hmod, List.length_set, List.length_map, List.length_range,
    SharedBuffer.mk.injEq, true_and, and_true]
  constructor
  · rw [set_range_map _ _ _ _ hw128]
    apply List.map_congr_left
    intro i _
    by_cases h : i = w
    · subst h
      simp [List.getElem?_eq_getElem hw]
    · have : i < w ↔ i < w + 1 := by omega
      simp [h, this]
  · rcases Nat.lt_or_ge (w + 1) 128 with h | h
    · simp [Nat.not_le.mpr h, Nat.mod_eq_of_lt h]
    · have h128 : w + 1 = 128 := by omega
      simp [h128]

/-- The pull loop on a canonical state pulls min(fuel, remaining) items. -/
lemma pullLoop_mkBuf (items : List α) (hN : items.length ≤ 128) :
    ∀ fuel w, w ≤ items.length →
      pullLoop (mkBuf items w) fuel = mkBuf items (min (w + fuel) items.length) := by
  intro fuel
  induction fuel with
  | zero =>
    intro w hw
    rw [pullLoop_zero, Nat.add_zero, Nat.min_eq_left hw]
  | succ f ih =>
    intro w hw
    rcases Nat.lt_or_ge w items.length with hlt | hge
    · have hstream : (mkBuf items w).stream
          = some items[w] :: (items.drop (w + 1)).map some := by
        rw [mkBuf_stream, List.drop_eq_getElem_cons hlt, List.map_cons]
      rw [pullLoop_step, hstream]
      simp only []
      rw [mkBuf_write items w hlt hN, ih (w + 1) hlt]
      congr 1
      omega
    · have hw' : w = items.length := le_antisymm hw hge
      subst hw'
      have hstream : (mkBuf items items.length).stream = [] := by
        rw [mkBuf_stream, List.drop_length, List.map_nil]
      rw [pullLoop_stream_nil _ hstream]
      congr 1
      omega

lemma mkBuf_erase_wakers (items : List α) (w : Nat) :
    { mkBuf items w with wakers := [] } = mkBuf items w := rfl

/-- The reader-cursor advance in SharedStream::poll_receive computes mod 128. -/
lemma cursor_adv_mod (r : Nat) (hr : r < 128) :
    (if r + 1 ≥ 128 then 0 else r + 1) = (r + 1) % 128 := by
  rcases Nat.lt_or_ge (r + 1) 128 with h | h
  · rw [if_neg (by omega), Nat.mod_eq_of_lt h]
  · have h128 : r + 1 = 128 := by omega
    rw [h128]
    rfl

/-- Main single-reader lemma: from the canonical state with `w` items pulled
and `r` of them read (r ≤ w ≤ r+16, w ≤ N ≤ 128), repeated polling observes
exactly the suffix of the item sequence from position r, in order. -/
lemma readAll_mkBuf (items : List α) (hN : items.length ≤ 128) :
    ∀ fuel w r, r ≤ w → w ≤ items.length → w ≤ r + 16 →
      readAll ⟨mkBuf items w, r % 128⟩ fuel = (items.drop r).take fuel := by
  intro fuel
  induction fuel with
  | zero => intro w r _ _ _; rfl
  | succ f ih =>
    intro w r hrw hwN hw16
    rcases Nat.lt_or_ge r w with hlt | hge
    · -- fast path: the slot at r is already committed
      have hrN : r < items.length := lt_of_lt_of_le hlt hwN
      have hr128 : r < 128 := lt_of_lt_of_le hrN hN
      have hrmod : r % 128 = r := Nat.mod_eq_of_lt hr128
      have hne : r % 128 ≠ (mkBuf items w).cursor := by
        rw [hrmod, mkBuf_cursor]
        rcases Nat.lt_or_ge w 128 with h | h
        · rw [Nat.mod_eq_of_lt h]; omega
        · have hw128 : w = 128 := by omega
          rw [hw128, Nat.mod_self]; omega
      have hpoll : SharedStream.poll_receive ⟨mkBuf items w, r % 128⟩ true 0
          = (Poll.Ready (some items[r]), ⟨mkBuf items w, (r + 1) % 128⟩, []) := by
        unfold SharedStream.poll_receive
        rw [poll_receive_fast _ _ _ _ hne]
        simp only [mkBuf_buffer_length]
        rw [hrmod, mkBuf_buffer_getD items w r hr128, if_pos hlt,
          List.getElem?_eq_getElem hrN, cursor_adv_mod r hr128]
      rw [readAll, hpoll]
      show items[r] :: readAll ⟨mkBuf items w, (r + 1) % 128⟩ f = _
      rw [ih w (r + 1) hlt hwN (by omega)]
      rw [List.drop_eq_getElem_cons hrN, List.take_succ_cons]
    · -- caught up: r = w; pull from the stream under the lock
      have hrw' : r = w := le_antisymm hrw hge
      subst hrw'
      rcases Nat.lt_or_ge r items.length with hltN | hgeN
      · -- items remain: the pull moves the cursor and r's slot becomes ready
        have hr128 : r < 128 := lt_of_lt_of_le hltN hN
        have hrmod : r % 128 = r := Nat.mod_eq_of_lt hr128
        have hpull : pullLoop (mkBuf items r) 16
            = mkBuf items (min (r + 16) items.length) :=
          pullLoop_mkBuf items hN 16 r (le_of_lt hltN)
        have hlt' : r < min (r + 16) items.length := by omega
        have hmin128 : min (r + 16) items.length ≤ 128 := by omega
        have hne2 : r % 128 ≠ (pullLoop (mkBuf items r) 16).cursor := by
          rw [hrmod, hpull, mkBuf_cursor]
          rcases Nat.lt_or_ge (min (r + 16) items.length) 128 with h | h
          · rw [Nat.mod_eq_of_lt h]; omega
          · have h128 : min (r + 16) items.length = 128 := by omega
            rw [h128, Nat.mod_self]; omega
        have hpoll : SharedStream.poll_receive ⟨mkBuf items r, r % 128⟩ true 0
            = (Poll.Ready (some items[r]),
               ⟨mkBuf items (min (r + 16) items.length), (r + 1) % 128⟩, []) := by
          unfold SharedStream.poll_receive
          rw [poll_receive_pull _ _ _ (by rw [mkBuf_cursor]) hne2]
          rw [hpull, mkBuf_erase_wakers, mkBuf_wakers]
          simp only [mkBuf_buffer_length]
          rw [hrmod, mkBuf_buffer_getD items _ r hr128, if_pos hlt',
            List.getElem?_eq_getElem hltN, cursor_adv_mod r hr128]
        rw [readAll, hpoll]
        show items[r] :: readAll
            ⟨mkBuf items (min (r + 16) items.length), (r + 1) % 128⟩ f = _
        rw [ih (min (r + 16) items.length) (r + 1) hlt' (by omega) (by omega)]
        rw [List.drop_eq_getElem_cons hltN, List.take_succ_cons]
      · -- the stream is exhausted: the reader stays pending
        have hrN : r = items.length := by omega
        subst hrN
        have hstream : (mkBuf items items.length).stream = [] := by
          rw [mkBuf_stream, List.drop_length, List.map_nil]
        have hpoll : SharedStream.poll_receive
            (⟨mkBuf items items.length, items.length % 128⟩ : SharedStream α) true 0
            = (Poll.Pending,
               ⟨{ mkBuf items items.length with wakers := [0] }, items.length % 128⟩, []) := by
          unfold SharedStream.poll_receive
          rw [poll_receive_pending_locked _ _ _ (by rw [mkBuf_cursor])
            (by rw [pullLoop_stream_nil _ hstream, mkBuf_cursor])]
          rw [pullLoop_stream_nil _ hstream]
          rfl
        rw [readAll, hpoll, List.drop_length, List.take_nil]

lemma replicate_none_eq_range_map (n : Nat) :
    (List.replicate n (none : Option α)) = (List.range n).map (fun i => if i < 0 then none else none) := by
  apply List.ext_getElem
  · simp
  · intro i h1 h2
    simp

lemma new_eq_mkBuf (items : List α) :
    SharedStream.new (items.map some) = ⟨mkBuf items 0, 0 % 128⟩ := by
  unfold SharedStream.new SharedBuffer.new mkBuf
  simp only [List.drop_zero, Nat.zero_mod]
  rw [replicate_none_eq_range_map]
  simp

/-- How many stream events a pull can consume is bounded by its fuel. -/
lemma pullLoop_stream_length :
    ∀ (fuel : Nat) (b : SharedBuffer α),
      b.stream.length - (pullLoop b fuel).stream.length ≤ fuel := by
  intro fuel
  induction fuel with
  | zero => intro b; simp [pullLoop_zero]
  | succ f ih =>
    intro b
    rw [pullLoop_step]
    cases hs : b.stream with
    | nil => simp [hs]
    | cons e rest =>
      cases e with
      | none => simp [hs]
      | some a =>
        have := ih (SharedBuffer.cursorStep
          { b with stream := rest, buffer := b.buffer.set b.cursor (some a) })
        simp only [SharedBuffer.cursorStep] at this ⊢
        simp only [hs, List.length_cons]
        omega

/-- C1: a single reader polling a BroadcastBuffer over a sequence of
N ≤ 128 items observes exactly those N items, in pull order, with no
duplicates and no omissions. -/
theorem single_reader_observes_pull_order (items : List α) (h : items.length ≤ 128) :
    readAll (SharedStream.new (items.map some)) items.length = items := by
  rw [new_eq_mkBuf]
  rw [readAll_mkBuf items h items.length 0 0 (Nat.le_refl 0) (Nat.zero_le _) (by omega)]
  simp

theorem single_reader_observes_pull_order_witness :
    readAll (SharedStream.new ((List.range 20).map some)) (List.range 20).length
      = List.range 20 :=
  single_reader_observes_pull_order (List.range 20) (by decide)

/-- C2: SharedBuffer::poll_receive follows the three-step algorithm: fast
path returning the committed slot when the cursors differ (state untouched);
under an acquired pull lock, a pull of at most 16 items (consuming at most
16 poll events, stopping at the first non-ready poll), waking every
registered waker and returning the now-ready slot if the write cursor moved;
otherwise registering the caller's waker and reporting Pending. -/
theorem poll_receive_three_step (b : SharedBuffer α) (sc : Nat) (lk : Bool) (w : Nat) :
    (sc ≠ b.cursor →
      b.poll_receive sc lk w = ⟨Poll.Ready (b.buffer.getD sc none), b, []⟩) ∧
    (sc = b.cursor → lk = true → sc ≠ (pullLoop b 16).cursor →
      b.poll_receive sc lk w =
        ⟨Poll.Ready ((pullLoop b 16).buffer.getD sc none),
         { pullLoop b 16 with wakers := [] }, (pullLoop b 16).wakers⟩) ∧
    (sc = b.cursor → lk = true → sc = (pullLoop b 16).cursor →
      b.poll_receive sc lk w =
        ⟨Poll.Pending, { pullLoop b 16 with wakers := (pullLoop b 16).wakers ++ [w] }, []⟩) ∧
    (sc = b.cursor → lk = false →
      b.poll_receive sc lk w = ⟨Poll.Pending, { b with wakers := b.wakers ++ [w] }, []⟩) ∧
    (∀ rest, b.stream = none :: rest → pullLoop b 16 = { b with stream := rest }) ∧
    b.stream.length - (pullLoop b 16).stream.length ≤ 16 := by
  refine ⟨poll_receive_fast b sc lk w, ?_, ?_, ?_, ?_, pullLoop_stream_length 16 b⟩
  · intro h hl h2
    subst hl
    exact poll_receive_pull b sc w h h2
  · intro h hl h2
    subst hl
    exact poll_receive_pending_locked b sc w h h2
  · intro h hl
    subst hl
    exact poll_receive_pending_nolock b sc w h
  · intro rest hs
    rw [pullLoop_step, hs]

theorem poll_receive_three_step_witness :
    (SharedBuffer.new ([some 5] : List (Option Nat))).poll_receive 0 true 3
      = ⟨Poll.Ready ((pullLoop (SharedBuffer.new [some 5]) 16).buffer.getD 0 none),
         { pullLoop (SharedBuffer.new [some 5]) 16 with wakers := [] },
         (pullLoop (SharedBuffer.new [some 5]) 16).wakers⟩ :=
  (poll_receive_three_step (SharedBuffer.new [some 5]) 0 true 3).2.1 rfl rfl (by decide)

/-- C3: a reader cloned after K items have been produced starts at the
buffer's current write cursor and subsequently observes only items produced
at or after position K — it never replays earlier history. -/
theorem clone_starts_at_current_write (items : List α) (c fuel K : Nat)
    (hK : K ≤ items.length) (hN : items.length ≤ 128) :
    (SharedStream.clone ⟨mkBuf items K, c⟩).cursor = (mkBuf items K).cursor ∧
    readAll (SharedStream.clone ⟨mkBuf items K, c⟩) fuel = (items.drop K).take fuel := by
  have hclone : SharedStream.clone ⟨mkBuf items K, c⟩
      = (⟨mkBuf items K, K % 128⟩ : SharedStream α) := by
    simp [SharedStream.clone, mkBuf_cursor]
  constructor
  · rfl
  · rw [hclone]
    exact readAll_mkBuf items hN fuel K K (Nat.le_refl K) hK (by omega)

theorem clone_starts_at_current_write_witness :
    (SharedStream.clone ⟨mkBuf [10, 11, 12] 2, 5⟩).cursor = (mkBuf [10, 11, 12] 2).cursor ∧
    readAll (SharedStream.clone ⟨mkBuf [10, 11, 12] 2, 5⟩) 4 = ([10, 11, 12].drop 2).take 4 :=
  clone_starts_at_current_write [10, 11, 12] 5 4 2 (by decide) (by decide)

/-! ### Exhausted streams (C8) -/

/-- One poll by a caught-up reader when the underlying sequence has
permanently stopped producing: Pending, waker queued, nothing woken, buffer
and cursor untouched. -/
lemma poll_receive_exhausted (b : SharedBuffer α) (lk : Bool) (w : Nat)
    (hs : b.stream = []) :
    b.poll_receive b.cursor lk w = ⟨Poll.Pending, { b with wakers := b.wakers ++ [w] }, []⟩ := by
  cases lk
  · exact poll_receive_pending_nolock b _ w rfl
  · rw [poll_receive_pending_locked b _ w rfl (by rw [pullLoop_stream_nil _ hs])]
    rw [pullLoop_stream_nil _ hs]

/-- A series of polls, each by a reader whose cursor has caught up with the
write cursor, with arbitrary lock outcomes and waker ids: returns the final
buffer, the poll results, and every waker woken along the way. -/
def pollDrained : SharedBuffer α → List (Bool × Nat) →
    SharedBuffer α × List (Poll (Option α)) × List Nat
  | b, [] => (b, [], [])
  | b, (lk, w) :: ps =>
    let r := b.poll_receive b.cursor lk w
    let rest := pollDrained r.buf ps
    (rest.1, r.res :: rest.2.1, r.woken ++ rest.2.2)

/-- C8: once the underlying sequence has permanently stopped producing, no
end-of-sequence sentinel is recorded in the buffer, and caught-up readers
polling after exhaustion always get Pending and are never woken. -/
theorem exhausted_stream_never_wakes (b : SharedBuffer α) (ps : List (Bool × Nat))
    (hs : b.stream = []) :
    (pollDrained b ps).2.1 = List.replicate ps.length Poll.Pending ∧
    (pollDrained b ps).2.2 = [] ∧
    (pollDrained b ps).1.buffer = b.buffer ∧
    (pollDrained b ps).1.cursor = b.cursor ∧
    (pollDrained b ps).1.stream = [] := by
  induction ps generalizing b with
  | nil => exact ⟨rfl, rfl, rfl, rfl, hs⟩
  | cons p ps ih =>
    obtain ⟨lk, w⟩ := p
    have hstep := poll_receive_exhausted b lk w hs
    have ih' := ih { b with wakers := b.wakers ++ [w] } hs
    simp only [pollDrained, hstep]
    simp [List.replicate_succ, ih'.1, ih'.2.1, ih'.2.2.1, ih'.2.2.2.1, ih'.2.2.2.2]

theorem exhausted_stream_never_wakes_witness :
    ((pollDrained (SharedBuffer.new ([] : List (Option Nat))) [(true, 1), (false, 2)]).2.1
        = List.replicate ([(true, 1), (false, 2)] : List (Bool × Nat)).length Poll.Pending ∧
      (pollDrained (SharedBuffer.new ([] : List (Option Nat))) [(true, 1), (false, 2)]).2.2 = [] ∧
      (pollDrained (SharedBuffer.new ([] : List (Option Nat))) [(true, 1), (false, 2)]).1.buffer
        = (SharedBuffer.new ([] : List (Option Nat))).buffer ∧
      (pollDrained (SharedBuffer.new ([] : List (Option Nat))) [(true, 1), (false, 2)]).1.cursor
        = (SharedBuffer.new ([] : List (Option Nat))).cursor ∧
      (pollDrained (SharedBuffer.new ([] : List (Option Nat))) [(true, 1), (false, 2)]).1.stream
        = []) :=
  exhausted_stream_never_wakes (SharedBuffer.new []) [(true, 1), (false, 2)] rfl

/-! ### Cursor bounds (C10) -/

/-- Well-formedness of the shared state: the backing vector has the fixed
capacity 128 and the write cursor is strictly below it. -/
def SharedBuffer.wf (b : SharedBuffer α) : Prop :=
  b.buffer.length = 128 ∧ b.cursor < 128

lemma cursorStep_wf (b : SharedBuffer α) (h : b.buffer.length = 128) :
    (SharedBuffer.cursorStep b).wf := by
  unfold SharedBuffer.cursorStep SharedBuffer.wf
  refine ⟨h, ?_⟩
  simp only [h]
  split <;> omega

lemma pullLoop_wf :
    ∀ (fuel : Nat) (b : SharedBuffer α), b.wf → (pullLoop b fuel).wf := by
  intro fuel
  induction fuel with
  | zero => intro b h; exact h
  | succ f ih =>
    intro b h
    rw [pullLoop_step]
    cases hs : b.stream with
    | nil => exact h
    | cons e rest =>
      cases e with
      | none => exact h
      | some a =>
        apply ih
        apply cursorStep_wf
        simpa using h.1

lemma poll_receive_wf (b : SharedBuffer α) (sc : Nat) (lk : Bool) (w : Nat)
    (h : b.wf) : (b.poll_receive sc lk w).buf.wf := by
  have hp := pullLoop_wf 16 b h
  unfold SharedBuffer.poll_receive
  split
  · split
    · simp only []
      split
      · exact hp
      · exact hp
    · exact h
  · exact h

/-- C10: every operation keeps the write cursor and every reader cursor
strictly below the capacity 128, so every slot index used to read or to
write the backing vector is in bounds. -/
theorem cursors_stay_in_bounds (b : SharedBuffer α) (sc : Nat) (lk : Bool) (w : Nat)
    (item : α) (s : SharedStream α) (hb : b.wf) (hsb : s.buffer.wf)
    (hsc : s.cursor < 128) :
    b.cursor < b.buffer.length ∧
    s.cursor < s.buffer.buffer.length ∧
    (b.poll_receive sc lk w).buf.wf ∧
    (b.repair item).1.wf ∧
    (SharedStream.clone s).cursor < 128 ∧
    (s.poll_receive lk w).2.1.buffer.wf ∧
    (s.poll_receive lk w).2.1.cursor < 128 := by
  have hpoll := poll_receive_wf s.buffer s.cursor lk w hsb
  refine ⟨?_, ?_, poll_receive_wf b sc lk w hb, ?_, ?_, ?_, ?_⟩
  · rw [hb.1]; exact hb.2
  · rw [hsb.1]; exact hsc
  · exact cursorStep_wf { b with buffer := b.buffer.set b.cursor (some item) }
      (by simpa using hb.1)
  · exact hsb.2
  · unfold SharedStream.poll_receive
    cases hres : (s.buffer.poll_receive s.cursor lk w).res with
    | Ready v => simp only [hres]; exact hpoll
    | Pending => simp only [hres]; exact hpoll
  · unfold SharedStream.poll_receive
    cases hres : (s.buffer.poll_receive s.cursor lk w).res with
    | Ready v =>
      simp only [hres]
      rw [hpoll.1]
      split <;> omega
    | Pending => simp only [hres]; exact hsc

theorem cursors_stay_in_bounds_witness :
    ((SharedBuffer.new ([some 1] : List (Option Nat))).poll_receive 0 true 0).buf.wf :=
  (cursors_stay_in_bounds (SharedBuffer.new [some 1]) 0 true 0 1
    (SharedStream.new ([] : List (Option Nat))) ⟨by decide, by decide⟩
    ⟨by decide, by decide⟩ (by decide)).2.2.1

/-! ### The spin lock (src/vlock.rs, C5) -/

/-- VLock from src/vlock.rs: the atomic flag `is_locked`. -/
structure VLock where
  is_locked : Bool
  deriving Repr, DecidableEq

def VLock.new : VLock := ⟨false⟩

/-- VLock::try_lock: a relaxed load, then compare_exchange(false, true); as
one atomic step this hands out a guard exactly when the flag was false, and
never blocks.  The Option is the returned guard. -/
def VLock.try_lock (l : VLock) : Option Unit × VLock :=
  if l.is_locked then (none, l) else (some (), ⟨true⟩)

/-- Drop for VLockGuard: store(false, Release). -/
def VLockGuard.drop (_l : VLock) : VLock := ⟨false⟩

/-- The operations threads can perform on one VLock; each is one atomic step
(the CAS makes try_lock atomic), so an arbitrary thread interleaving is an
arbitrary list of operations. -/
inductive LockOp where
  | tryAcquire : LockOp
  | release : LockOp
  deriving Repr, DecidableEq

/-- The lock together with the number of live guards. -/
structure LockState where
  lock : VLock
  guards : Nat
  deriving Repr, DecidableEq

/-- tryAcquire runs VLock::try_lock, creating a guard on success; release
drops one live guard (guards are linear values, so release fires only when a
guard exists). -/
def lockStep (s : LockState) : LockOp → LockState
  | LockOp.tryAcquire =>
    match VLock.try_lock s.lock with
    | (some _, l') => ⟨l', s.guards + 1⟩
    | (none, l') => ⟨l', s.guards⟩
  | LockOp.release =>
    if s.guards = 0 then s else ⟨VLockGuard.drop s.lock, s.guards - 1⟩

def lockRun (ops : List LockOp) : LockState :=
  List.foldl lockStep ⟨VLock.new, 0⟩ ops

lemma lockStep_inv (s : LockState) (op : LockOp)
    (h1 : s.guards ≤ 1) (h2 : s.lock.is_locked = decide (s.guards = 1)) :
    (lockStep s op).guards ≤ 1 ∧
    ((lockStep s op).lock.is_locked = decide ((lockStep s op).guards = 1)) := by
  cases op with
  | tryAcquire =>
    unfold lockStep VLock.try_lock
    cases hl : s.lock.is_locked with
    | true => simp only [hl, if_true]; exact ⟨h1, hl ▸ h2⟩
    | false =>
      have hg : s.guards = 0 := by
        rw [hl] at h2
        have := of_decide_eq_false h2.symm
        omega
      simp only [hl, if_false, Bool.false_eq_true]
      simp [hg]
  | release =>
    unfold lockStep
    rcases Nat.eq_zero_or_pos s.guards with hg | hg
    · simp only [hg, if_pos rfl]; exact ⟨h1, h2⟩
    · have hg1 : s.guards = 1 := by omega
      simp [hg1, VLockGuard.drop]

lemma lockRun_inv (ops : List LockOp) :
    ∀ s : LockState, s.guards ≤ 1 → s.lock.is_locked = decide (s.guards = 1) →
      (List.foldl lockStep s ops).guards ≤ 1 ∧
      ((List.foldl lockStep s ops).lock.is_locked
        = decide ((List.foldl lockStep s ops).guards = 1)) := by
  induction ops with
  | nil => intro s h1 h2; exact ⟨h1, h2⟩
  | cons op ops ih =>
    intro s h1 h2
    rw [List.foldl_cons]
    have := lockStep_inv s op h1 h2
    exact ih _ this.1 this.2

/-- C5: try_lock hands out a guard exactly when the flag was false (setting
it true) and otherwise returns nothing without blocking; dropping a guard
stores false; consequently, over every sequence of atomic
try_acquire/release steps from the fresh lock, at most one guard is live at
any instant (and the flag is set exactly while one is). -/
theorem vlock_at_most_one_guard :
    (∀ ops : List LockOp, (lockRun ops).guards ≤ 1) ∧
    (∀ ops : List LockOp,
      (lockRun ops).lock.is_locked = decide ((lockRun ops).guards = 1)) ∧
    (∀ l : VLock, l.is_locked = false → l.try_lock = (some (), ⟨true⟩)) ∧
    (∀ l : VLock, l.is_locked = true → l.try_lock = (none, l)) ∧
    (∀ l : VLock, (VLockGuard.drop l).is_locked = false) := by
  refine ⟨fun ops => (lockRun_inv ops _ (by decide) (by decide)).1,
          fun ops => (lockRun_inv ops _ (by decide) (by decide)).2, ?_, ?_, fun _ => rfl⟩
  · intro l hl; simp [VLock.try_lock, hl]
  · intro l hl; simp [VLock.try_lock, hl]

theorem vlock_at_most_one_guard_witness :
    (lockRun [LockOp.tryAcquire, LockOp.tryAcquire, LockOp.release,
        LockOp.tryAcquire]).guards ≤ 1 ∧
    (VLock.new.try_lock = (some (), ⟨true⟩)) :=
  ⟨vlock_at_most_one_guard.1 _, vlock_at_most_one_guard.2.2.1 VLock.new rfl⟩

/-! ### The peer registry race (src/p2p.rs, C4) -/

/-- Phases of the registration section of P2pRt::open_stream: `check` = about
to test the registry for the address under the mutex; `register` = the check
found no peer, the task dials and its serve() will push the new Peer;
`done` = past registration. -/
inductive OPhase where
  | check : OPhase
  | register : OPhase
  | done : OPhase
  deriving Repr, DecidableEq

structure OTask where
  addr : Nat
  phase : OPhase
  deriving Repr, DecidableEq

/-- The peer registry (list of peer remote addresses, as pushed into
`peers: Arc<Mutex<Vec<Peer>>>`) together with the in-flight open_stream
tasks. -/
structure P2pSt where
  peers : List Nat
  tasks : List OTask
  deriving Repr, DecidableEq

/-- Interleaved execution of open_stream's registration section, translated
from src/p2p.rs.  The registry mutex makes each individual list operation
atomic, but is NOT held across the check–dial–push sequence: a task first
checks membership (`peers.lock().iter().find(..).is_none()`), releases the
lock, dials, and only then serve() pushes the Peer
(`self.peers.lock().push(Peer::new(handle))`). -/
inductive P2pStep : P2pSt → P2pSt → Prop where
  | check_found (peers : List Nat) (pre post : List OTask) (a : Nat) :
      a ∈ peers →
      P2pStep ⟨peers, pre ++ ⟨a, OPhase.check⟩ :: post⟩
              ⟨peers, pre ++ ⟨a, OPhase.done⟩ :: post⟩
  | check_miss (peers : List Nat) (pre post : List OTask) (a : Nat) :
      a ∉ peers →
      P2pStep ⟨peers, pre ++ ⟨a, OPhase.check⟩ :: post⟩
              ⟨peers, pre ++ ⟨a, OPhase.register⟩ :: post⟩
  | do_register (peers : List Nat) (pre post : List OTask) (a : Nat) :
      P2pStep ⟨peers, pre ++ ⟨a, OPhase.register⟩ :: post⟩
              ⟨peers ++ [a], pre ++ ⟨a, OPhase.done⟩ :: post⟩

/-- C4 fails on the code: from an empty registry, two concurrent
open_stream(0) calls can interleave so that both pass the membership check
before either pushes, and the registry ends with two Peer entries for
address 0.  This exhibits a reachable state violating the claimed
at-most-one-entry-per-address invariant. -/
theorem peer_registry_duplicate_reachable :
    Relation.ReflTransGen P2pStep
      ⟨[], [⟨0, OPhase.check⟩, ⟨0, OPhase.check⟩]⟩
      ⟨[0, 0], [⟨0, OPhase.done⟩, ⟨0, OPhase.done⟩]⟩ ∧
    2 ≤ List.count 0 [0, 0] := by
  constructor
  · have s1 : P2pStep ⟨[], [⟨0, OPhase.check⟩, ⟨0, OPhase.check⟩]⟩
        ⟨[], [⟨0, OPhase.register⟩, ⟨0, OPhase.check⟩]⟩ :=
      P2pStep.check_miss [] [] [⟨0, OPhase.check⟩] 0 (by simp)
    have s2 : P2pStep ⟨[], [⟨0, OPhase.register⟩, ⟨0, OPhase.check⟩]⟩
        ⟨[], [⟨0, OPhase.register⟩, ⟨0, OPhase.register⟩]⟩ :=
      P2pStep.check_miss [] [⟨0, OPhase.register⟩] [] 0 (by simp)
    have s3 : P2pStep ⟨[], [⟨0, OPhase.register⟩, ⟨0, OPhase.register⟩]⟩
        ⟨[0], [⟨0, OPhase.done⟩, ⟨0, OPhase.register⟩]⟩ :=
      P2pStep.do_register [] [] [⟨0, OPhase.register⟩] 0
    have s4 : P2pStep ⟨[0], [⟨0, OPhase.done⟩, ⟨0, OPhase.register⟩]⟩
        ⟨[0, 0], [⟨0, OPhase.done⟩, ⟨0, OPhase.done⟩]⟩ :=
      P2pStep.do_register [0] [⟨0, OPhase.done⟩] [] 0
    exact Relation.ReflTransGen.head s1 (Relation.ReflTransGen.head s2
      (Relation.ReflTransGen.head s3 (Relation.ReflTransGen.head s4
        Relation.ReflTransGen.refl)))
  · decide

/-! ### Per-stream serving (src/p2p.rs, C6, C7, C9) -/

/-- Outcome of the detached per-stream task spawned by P2pRt::serve:
`invoked` is the handler the task dispatched to (none if it aborted first),
`sent` the frames the task itself wrote to the stream, `peers` the registry
after the task, `connClosed` whether the task tore down the connection,
`consumed` how many inbound frames it read. -/
structure StreamTaskOut (H : Type) where
  invoked : Option H
  sent : List (List Nat)
  peers : List Nat
  connClosed : Bool
  consumed : Nat
  deriving Repr, DecidableEq

/-- The per-stream task of P2pRt::serve: read exactly one frame
(framed_io.next()), decode it as Negotiate (the decoder `dec` models
rmp_serde::from_slice), look up the handler in the service table, and invoke
it.  Every failure exits the task via `?`, touching nothing else. -/
def serveStreamTask (table : String → Option H) (dec : List Nat → Option String)
    (frames : List (List Nat)) (peers : List Nat) : StreamTaskOut H :=
  match frames with
  | [] => ⟨none, [], peers, false, 0⟩
  | bs :: _ =>
    match dec bs with
    | none => ⟨none, [], peers, false, 1⟩
    | some name =>
      match table name with
      | none => ⟨none, [], peers, false, 1⟩
      | some h => ⟨some h, [], peers, false, 1⟩

/-- C6: the serving task reads exactly one frame and decodes it as the
negotiation message; a decode failure or an unregistered service name aborts
only that stream's task — the registry and connection are untouched, no
handler runs, and no error frame is sent back to the opener. -/
theorem stream_error_isolated (table : String → Option H) (dec : List Nat → Option String)
    (frames : List (List Nat)) (peers : List Nat) :
    (serveStreamTask table dec frames peers).peers = peers ∧
    (serveStreamTask table dec frames peers).connClosed = false ∧
    (serveStreamTask table dec frames peers).sent = [] ∧
    (serveStreamTask table dec frames peers).consumed ≤ 1 ∧
    (∀ bs rest, frames = bs :: rest → (serveStreamTask table dec frames peers).consumed = 1) ∧
    (∀ bs rest, frames = bs :: rest → dec bs = none →
      (serveStreamTask table dec frames peers).invoked = none) ∧
    (∀ bs rest name, frames = bs :: rest → dec bs = some name → table name = none →
      (serveStreamTask table dec frames peers).invoked = none) := by
  cases hf : frames with
  | nil => simp [serveStreamTask]
  | cons bs rest =>
    cases hd : dec bs with
    | none => simp [serveStreamTask, hd]
    | some name =>
      cases ht : table name with
      | none =>
        refine ⟨by simp [serveStreamTask, hd, ht], by simp [serveStreamTask, hd, ht],
          by simp [serveStreamTask, hd, ht], by simp [serveStreamTask, hd, ht],
          by simp [serveStreamTask, hd, ht], ?_, ?_⟩
        · intro bs' rest' he hd'
          injection he with h1 h2
          rw [← h1] at hd'
          rw [hd'] at hd
          injection hd
        · intro bs' rest' name' he hd' ht'
          simp [serveStreamTask, hd, ht]
      | some h =>
        refine ⟨by simp [serveStreamTask, hd, ht], by simp [serveStreamTask, hd, ht],
          by simp [serveStreamTask, hd, ht], by simp [serveStreamTask, hd, ht],
          by simp [serveStreamTask, hd, ht], ?_, ?_⟩
        · intro bs' rest' he hd'
          injection he with h1 h2
          rw [← h1] at hd'
          rw [hd'] at hd
          injection hd
        · intro bs' rest' name' he hd' ht'
          injection he with h1 h2
          rw [← h1] at hd'
          rw [hd'] at hd
          injection hd with hn
          rw [hn] at ht'
          rw [ht'] at ht
          injection ht

theorem stream_error_isolated_witness :
    (serveStreamTask (fun _ => (none : Option Nat)) (fun _ => some "echo")
      [[1, 2]] [7]).invoked = none :=
  (stream_error_isolated (fun _ => (none : Option Nat)) (fun _ => some "echo")
    [[1, 2]] [7]).2.2.2.2.2.2 [1, 2] [] "echo" rfl rfl rfl

/-- The cleanup at the end of the accept loop in P2pRt::serve:
`self.peers.lock().retain(|peer| peer.remote_addr() != handle.remote_addr())`
keeps exactly the peers whose address differs from the closing connection's
remote address. -/
def serveCleanup (peers : List Nat) (a : Nat) : List Nat :=
  peers.filter (fun p => p ≠ a)

/-- C7: when a connection's accept loop ends, every Peer entry with that
connection's remote address is removed from the registry, and the entries for
every other address are left unchanged (same multiplicity, same relative
order — the result is a sublist of the original registry). -/
theorem accept_loop_end_removes_peer (peers : List Nat) (a : Nat) :
    a ∉ serveCleanup peers a ∧
    List.Sublist (serveCleanup peers a) peers ∧
    (∀ b, b ≠ a → List.count b (serveCleanup peers a) = List.count b peers) := by
  refine ⟨?_, List.filter_sublist peers, ?_⟩
  · simp [serveCleanup]
  · intro b hb
    unfold serveCleanup
    induction peers with
    | nil => rfl
    | cons p ps ih =>
      by_cases hp : p = a
      · subst hp
        rw [List.filter_cons_of_neg (by simp)]
        rw [List.count_cons_of_ne hb, ih]
      · rw [List.filter_cons_of_pos (by simp [hp])]
        by_cases hbp : p = b
        · subst hbp
          rw [List.count_cons_self, List.count_cons_self, ih]
        · rw [List.count_cons_of_ne (fun hh => hbp hh.symm),
            List.count_cons_of_ne (fun hh => hbp hh.symm), ih]

theorem accept_loop_end_removes_peer_witness :
    (3 ∉ serveCleanup [1, 3, 2, 3] 3 ∧
      List.Sublist (serveCleanup [1, 3, 2, 3] 3) [1, 3, 2, 3] ∧
      List.count 2 (serveCleanup [1, 3, 2, 3] 3) = List.count 2 [1, 3, 2, 3]) :=
  ⟨(accept_loop_end_removes_peer [1, 3, 2, 3] 3).1,
   (accept_loop_end_removes_peer [1, 3, 2, 3] 3).2.1,
   (accept_loop_end_removes_peer [1, 3, 2, 3] 3).2.2 2 (by decide)⟩

/-- Service from src/p2p.rs: handlers is a HashMap<ServiceName, Handler>,
modelled extensionally as a name-indexed partial map (std HashMap::insert
replaces the value stored at an existing key). -/
structure Service (H : Type) where
  handlers : String → Option H

def Service.empty (H : Type) : Service H := ⟨fun _ => none⟩

/-- Service::add_service(name, handler): handlers.insert(name, handler),
returning self. -/
def Service.add_service (s : Service H) (name : String) (h : H) : Service H :=
  ⟨fun n => if n = name then some h else s.handlers n⟩

/-- Handler lookup in serve's dispatch:
`this.service.handlers.get(&negotiate.service_name)`. -/
def Service.dispatch (s : Service H) (name : String) : Option H :=
  s.handlers name

/-- C9: registering the same service name twice keeps only the second
handler: dispatch on that name yields the second handler (so the first is
never invoked, unless it was already registered elsewhere or equals the
second), and every other name's entry is unchanged. -/
theorem add_service_overwrites (s : Service H) (name : String) (h1 h2 : H) :
    ((s.add_service name h1).add_service name h2).dispatch name = some h2 ∧
    (∀ m, m ≠ name →
      ((s.add_service name h1).add_service name h2).dispatch m = s.dispatch m) ∧
    (∀ m, ((s.add_service name h1).add_service name h2).dispatch m = some h1 →
      s.dispatch m = some h1 ∨ h1 = h2) := by
  refine ⟨by simp [Service.add_service, Service.dispatch], ?_, ?_⟩
  · intro m hm
    simp [Service.add_service, Service.dispatch, hm]
  · intro m hm
    by_cases h : m = name
    · subst h
      simp only [Service.add_service, Service.dispatch, if_pos rfl] at hm
      right
      injection hm with hm
      exact hm.symm
    · left
      simpa [Service.add_service, Service.dispatch, h] using hm

theorem add_service_overwrites_witness :
    (((Service.empty Nat).add_service "echo" 1).add_service "echo" 2).dispatch "echo"
        = some 2 ∧
    (((Service.empty Nat).add_service "echo" 1).add_service "echo" 2).dispatch "log"
        = (Service.empty Nat).dispatch "log" :=
  ⟨(add_service_overwrites (Service.empty Nat) "echo" 1 2).1,
   (add_service_overwrites (Service.empty Nat) "echo" 1 2).2.1 "log" (by decide)⟩
